import Mathlib

/-!
Verification of the extendable, partially memory-mapped file module
(`src/fs/iwexfile.c`) of the iowow library.

The embedding below is a shallow model of the module.  Conventions:

* `off_t` values are modelled as `Int` (the C type is a signed 64-bit
  integer; every theorem that depends on overflow-free arithmetic takes
  the corresponding bounds as hypotheses).  `size_t` loop counters that
  the C code mixes with `off_t` arithmetic (`wp`, `rp`, `siz`) are also
  modelled as `Int`; the one place where a negative `off_t` round-trips
  through `size_t` (`_exfile_read`'s shrink of `siz`) is value-preserving
  at 64 bits for the magnitudes reachable here, so the model keeps the
  signed value.
* The file contents are a single total map `data : Int → Nat`.  Memory
  mapped slots are `MAP_SHARED` views of the same file, so a `memcpy`
  into a mapping and a positional backend write are both updates of the
  same map; likewise for reads.
* The positional backend (`impl->file`, an external collaborator) is
  modelled as transferring the full requested byte count, which is its
  contract for the in-bounds ranges the module hands it.
* Locks are elided: every modelled operation is the body executed under
  the lock, and lock acquisition/release is modelled as succeeding.
* The `mmap`/`munmap`/`ftruncate` system calls may fail; an `Env` record
  fixes their outcome.
* The resize policy's opaque context threading is elided: the state
  carries the policy as a pure function of `(requested, current)` size,
  which is all the sizing logic observes.  The built-in rational
  multiplier policy is modelled separately with its explicit context.
-/

/-- Error codes emitted by the module (§7 taxonomy). `none` in an `iwrc`
stands for the C success code `0`. -/
inductive Err where
  | INVALID_STATE
  | INVALID_ARGS
  | OUT_OF_BOUNDS
  | NOT_ALIGNED
  | READONLY
  | MAXOFF
  | RESIZE_POLICY_FAIL
  | MMAP_OVERLAP
  | NOT_MMAPED
  | ERRNO
  | IO_ERRNO
  deriving Repr, DecidableEq

/-- C `iwrc`: `none` is success (`0`), `some e` an error code. -/
abbrev iwrc := Option Err

/-- The `IWRC(expr, rc)` macro: evaluate a new return code but keep the
first recorded error (`if (!rc) rc = __rc`). -/
def IWRC (newrc rc : iwrc) : iwrc :=
  match rc with
  | some e => some e
  | none => newrc

/-- `OFF_T_MAX` for a 64-bit `off_t`. -/
def OFF_T_MAX : Int := 2 ^ 63 - 1

/-- Modelled from the spec: `round_up(x, v)` — the `IW_ROUNDUP` macro of
`iwutils.h` (that header is not under `src/`).  For `v` a positive power
of two and non-negative `x` this equals the C mask computation
`((x + v - 1) & ~(v - 1))`. -/
def IW_ROUNDUP (x v : Int) : Int := ((x + v - 1) / v) * v

/-- Modelled from the spec: round `x` down to a multiple of `v` — the
`IW_ROUNDOWN` macro of `iwutils.h` (not under `src/`).  For `v` a power
of two this equals the C mask computation `x & ~(v - 1)`. -/
def IW_ROUNDOWN (x v : Int) : Int := x - x % v

/-- Modelled from the spec: the inclusive-open range overlap predicate
`IW_RANGES_OVERLAP(s1, e1, s2, e2)` of `iwutils.h` (not under `src/`):
one range's start lies inside the other half-open range. -/
def IW_RANGES_OVERLAP (s1 e1 s2 e2 : Int) : Prop :=
  (s2 ≤ s1 ∧ s1 < e2) ∨ (s1 ≤ s2 ∧ s2 < e1)

instance (s1 e1 s2 e2 : Int) : Decidable (IW_RANGES_OVERLAP s1 e1 s2 e2) := by
  unfold IW_RANGES_OVERLAP; exact inferInstance

/-- An mmap slot (`struct MMAPSLOT`).  The mapped address is not
modelled: a live mapping is a shared view of the file `data` map.  The
`prev`/`next` links of the C doubly-linked list are represented by the
position of the slot in the containing `List`. -/
structure MMAPSLOT where
  off : Int
  len : Int
  maxlen : Int
  deriving Repr, DecidableEq

/-- The extendable file state (`struct IWFS_EXT_IMPL`).  `owrite` is the
`IWFS_OWRITE` bit of `omode`; `data` is the byte content of the
underlying file, shared between the positional backend and all live
mappings. -/
structure EXF where
  fsize : Int
  psize : Int
  maxoff : Int
  owrite : Bool
  mmslots : List MMAPSLOT
  data : Int → Nat
  rspolicy : Int → Int → Int

/-- Outcome of the fallible system calls the module issues. -/
structure Env where
  ftruncOk : Bool
  mmapOk : Bool
  munmapOk : Bool

/-- `_exfile_initmmap_slot_lw`: realise one slot against `fsize`.
Returns the C return code and the updated slot.  Mirrors the source: on
`munmap` failure `len` is zeroed; on `mmap` failure the code has already
stored `nlen` into `s->len` before the call, so `len` keeps `nlen`. -/
def _exfile_initmmap_slot_lw (env : Env) (fsize : Int) (s : MMAPSLOT) : iwrc × MMAPSLOT :=
  let nlen := if s.off ≥ fsize then 0 else min s.maxlen (fsize - s.off)
  if nlen = s.len then (none, s)
  else if s.len ≠ 0 ∧ env.munmapOk = false then (some Err.ERRNO, { s with len := 0 })
  else if nlen > 0 then
    if env.mmapOk then (none, { s with len := nlen })
    else (some Err.ERRNO, { s with len := nlen })
  else (none, { s with len := 0 })

/-- `_exfile_initmmap_lw`: realise every slot in order, stopping at the
first error (slots already processed keep their updates). -/
def _exfile_initmmap_lw (env : Env) (fsize : Int) : List MMAPSLOT → iwrc × List MMAPSLOT
  | [] => (none, [])
  | s :: rest =>
    let r1 := _exfile_initmmap_slot_lw env fsize s
    if r1.1 ≠ none then (r1.1, r1.2 :: rest)
    else
      let r := _exfile_initmmap_lw env fsize rest
      (r.1, r1.2 :: r.2)

/-- The `truncfail:` label of `_exfile_truncate_lw`: restore the old
size, re-run slot realisation, keep the original error. -/
def _exfile_truncfail (env : Env) (st : EXF) (old_size : Int) (rc : iwrc) : iwrc × EXF :=
  let r := _exfile_initmmap_lw env old_size st.mmslots
  (IWRC r.1 rc, { st with fsize := old_size, mmslots := r.2 })

/-- `_exfile_truncate_lw`: truncate the file to (the page round-up of)
`size` under the write lock. -/
def _exfile_truncate_lw (env : Env) (st : EXF) (size0 : Int) : iwrc × EXF :=
  let old_size := st.fsize
  if st.fsize = size0 then (none, st)
  else
    let size := IW_ROUNDUP size0 st.psize
    if old_size < size then
      if st.owrite = false then (some Err.READONLY, st)
      else if st.maxoff ≠ 0 ∧ size > st.maxoff then (some Err.MAXOFF, st)
      else
        let st1 : EXF := { st with fsize := size }
        if env.ftruncOk = false then _exfile_truncfail env st1 old_size (some Err.ERRNO)
        else
          let r := _exfile_initmmap_lw env st1.fsize st1.mmslots
          (r.1, { st1 with mmslots := r.2 })
    else if old_size > size then
      if st.owrite = false then (some Err.READONLY, st)
      else
        let st1 : EXF := { st with fsize := size }
        let r := _exfile_initmmap_lw env st1.fsize st1.mmslots
        let st2 : EXF := { st1 with mmslots := r.2 }
        if r.1 ≠ none then _exfile_truncfail env st2 old_size r.1
        else if env.ftruncOk = false then _exfile_truncfail env st2 old_size (some Err.ERRNO)
        else (none, st2)
    else (none, st)

/-- `_exfile_ensure_size_lw`: grow the file to at least `sz` via the
resize policy.  The C alignment test `nsz & (psize - 1)` is the
two's-complement remainder by a power of two, i.e. `nsz % psize`. -/
def _exfile_ensure_size_lw (env : Env) (st : EXF) (sz : Int) : iwrc × EXF :=
  if st.fsize ≥ sz then (none, st)
  else
    let nsz := st.rspolicy sz st.fsize
    if nsz < sz ∨ nsz % st.psize ≠ 0 then (some Err.RESIZE_POLICY_FAIL, st)
    else if st.maxoff ≠ 0 ∧ nsz > st.maxoff then
      if st.maxoff < sz then (some Err.MAXOFF, st)
      else _exfile_truncate_lw env st st.maxoff
    else _exfile_truncate_lw env st nsz

/-- A `memcpy` of `len` bytes from buffer index `bufIdx` into the file at
offset `off`: both a positional backend write and a `memcpy` into a
`MAP_SHARED` mapping update the file contents this way. -/
def memcpyToFile (data : Int → Nat) (off : Int) (buf : Int → Nat) (bufIdx len : Int) : Int → Nat :=
  fun p => if off ≤ p ∧ p < off + len then buf (bufIdx + (p - off)) else data p

/-- A `memcpy` of `len` bytes from the file at offset `off` into buffer
index `bufIdx`: a positional backend read or a `memcpy` out of a
mapping. -/
def memcpyFromFile (buf : Int → Nat) (bufIdx : Int) (data : Int → Nat) (off len : Int) : Int → Nat :=
  fun i => if bufIdx ≤ i ∧ i < bufIdx + len then data (off + (i - bufIdx)) else buf i

/-- The slot walk of `_exfile_write` (`while (s && wp > 0) ...`).
Returns the updated file contents, the final `off` and the remaining
byte count `wp`.  Gap segments before a slot go through the positional
backend (modelled as a full write) and in-slot segments through
`memcpy`; both are `memcpyToFile` on the shared contents. -/
def _exfile_write_loop (buf : Int → Nat) (siz : Int) :
    List MMAPSLOT → (Int → Nat) → Int → Int → (Int → Nat) × Int × Int
  | [], data, off, wp => (data, off, wp)
  | s :: rest, data, off, wp =>
    if wp ≤ 0 then (data, off, wp)
    else if s.len = 0 ∨ wp + off ≤ s.off then (data, off, wp)
    else
      let step1 : (Int → Nat) × Int × Int :=
        if s.off > off then
          let len := min wp (s.off - off)
          (memcpyToFile data off buf (siz - wp) len, off + len, wp - len)
        else (data, off, wp)
      let step2 : (Int → Nat) × Int × Int :=
        if step1.2.2 > 0 ∧ s.off ≤ step1.2.1 ∧ s.off + s.len > step1.2.1 then
          let len := min step1.2.2 (s.off + s.len - step1.2.1)
          (memcpyToFile step1.1 step1.2.1 buf (siz - step1.2.2) len,
           step1.2.1 + len, step1.2.2 - len)
        else step1
      _exfile_write_loop buf siz rest step2.1 step2.2.1 step2.2.2

/-- The tail of `_exfile_write` after the checks and `ensure_size`: the
slot walk followed by the positional write of any remainder, and
`*sp = siz - wp`. -/
def _exfile_write_go (st1 : EXF) (off : Int) (buf : Int → Nat) (siz : Int) :
    iwrc × Int × EXF :=
  let r := _exfile_write_loop buf siz st1.mmslots st1.data off siz
  let step : (Int → Nat) × Int :=
    if r.2.2 > 0 then (memcpyToFile r.1 r.2.1 buf (siz - r.2.2) r.2.2, 0)
    else (r.1, r.2.2)
  (none, siz - step.2, { st1 with data := step.1 })

/-- `_exfile_write`: bounds check, `maxoff` check, the upgrade dance and
`ensure_size` (both checks of `end > fsize` see the same state here, so
they collapse into one), then the slot walk and the positional tail.
Returns `(rc, *sp, state)`. -/
def _exfile_write (env : Env) (st : EXF) (off : Int) (buf : Int → Nat) (siz : Int) :
    iwrc × Int × EXF :=
  let e := off + siz
  if off < 0 ∨ e < 0 then (some Err.OUT_OF_BOUNDS, 0, st)
  else if st.maxoff ≠ 0 ∧ off + siz > st.maxoff then (some Err.MAXOFF, 0, st)
  else
    let r1 := if e > st.fsize then _exfile_ensure_size_lw env st e else (none, st)
    if r1.1 ≠ none then (r1.1, 0, r1.2)
    else _exfile_write_go r1.2 off buf siz

/-- The slot walk of `_exfile_read`.  Returns the updated output buffer,
the final `off` and the remaining byte count `rp`. -/
def _exfile_read_loop (data : Int → Nat) (siz : Int) :
    List MMAPSLOT → (Int → Nat) → Int → Int → (Int → Nat) × Int × Int
  | [], buf, off, rp => (buf, off, rp)
  | s :: rest, buf, off, rp =>
    if rp ≤ 0 then (buf, off, rp)
    else if s.len = 0 ∨ rp + off ≤ s.off then (buf, off, rp)
    else
      let step1 : (Int → Nat) × Int × Int :=
        if s.off > off then
          let len := min rp (s.off - off)
          (memcpyFromFile buf (siz - rp) data off len, off + len, rp - len)
        else (buf, off, rp)
      let step2 : (Int → Nat) × Int × Int :=
        if step1.2.2 > 0 ∧ s.off ≤ step1.2.1 ∧ s.off + s.len > step1.2.1 then
          let len := min step1.2.2 (s.off + s.len - step1.2.1)
          (memcpyFromFile step1.1 (siz - step1.2.2) data step1.2.1 len,
           step1.2.1 + len, step1.2.2 - len)
        else step1
      _exfile_read_loop data siz rest step2.1 step2.2.1 step2.2.2

/-- The tail of `_exfile_read` after the checks and the EOF shrink: the
slot walk followed by the positional read of any remainder, and
`*sp = siz - rp`. -/
def _exfile_read_go (st : EXF) (off : Int) (buf0 : Int → Nat) (siz : Int) :
    iwrc × Int × (Int → Nat) :=
  let r := _exfile_read_loop st.data siz st.mmslots buf0 off siz
  let step : (Int → Nat) × Int :=
    if r.2.2 > 0 then (memcpyFromFile r.1 (siz - r.2.2) st.data r.2.1 r.2.2, 0)
    else (r.1, r.2.2)
  (none, siz - step.2, step.1)

/-- `_exfile_read`: bounds check, shrink of the request at EOF
(`rp = siz = impl->fsize - off`; at 64 bits the `off_t → size_t → off_t`
round-trip is value-preserving and the final `*sp = siz - rp` comes out
`0` whenever `off > fsize`, which the signed model reproduces), then the
walk and tail.  `buf0` is the caller's buffer; the result is
`(rc, *sp, buffer)`. -/
def _exfile_read (st : EXF) (off : Int) (buf0 : Int → Nat) (siz0 : Int) :
    iwrc × Int × (Int → Nat) :=
  let e := off + siz0
  if off < 0 ∨ e < 0 then (some Err.OUT_OF_BOUNDS, 0, buf0)
  else _exfile_read_go st off buf0 (if e > st.fsize then st.fsize - off else siz0)

/-- `_exfile_default_szpolicy`: page round-up of the request
(`iwp_page_size()` is passed explicitly as `psize`). -/
def _exfile_default_szpolicy (psize nsize : Int) : Int :=
  if nsize = -1 then 0 else IW_ROUNDUP nsize psize

/-- The `IW_RNUM` rational context of `iw_exfile_szpolicy_mul`. -/
structure IW_RNUM where
  n : Int
  dn : Int
  deriving Repr, DecidableEq

/-- `iw_exfile_szpolicy_mul`: the rational-multiplier policy.  Mirrors
the source's `uint64_t` evaluation order `ret = nsize; ret /= dn;
ret *= n;` (for the non-negative sizing requests the module issues the
unsigned arithmetic is plain integer arithmetic), then the page round-up
and the `OFF_T_MAX` clamp.  A missing (`none`) or invalid context falls
back to the default policy. -/
def iw_exfile_szpolicy_mul (psize : Int) (nsize csize : Int) (ctx : Option IW_RNUM) : Int :=
  if nsize = -1 then 0
  else
    match ctx with
    | none => _exfile_default_szpolicy psize nsize
    | some mul =>
      if mul.dn = 0 ∨ mul.n < mul.dn then _exfile_default_szpolicy psize nsize
      else
        let ret := (nsize / mul.dn) * mul.n
        let ret := IW_ROUNDUP ret psize
        if ret > OFF_T_MAX then OFF_T_MAX else ret

/-- The `maxlen` adjustment of `_exfile_add_mmap`: clamp to the offset
domain, round up to a page multiple, saturating down if rounding up
would leave the domain. -/
def _exfile_adjust_maxlen (psize off maxlen0 : Int) : Int :=
  let maxlen := if OFF_T_MAX - off < maxlen0 then OFF_T_MAX - off else maxlen0
  let tmp := IW_ROUNDUP maxlen psize
  if tmp < maxlen ∨ OFF_T_MAX - off < tmp then IW_ROUNDOWN maxlen psize else tmp

/-- The insertion walk of `_exfile_add_mmap`: check each slot for
overlap, break before the first slot with a larger offset (insert
there), append at the end otherwise.  On error the list is unchanged. -/
def _exfile_add_mmap_loop (ns : MMAPSLOT) : List MMAPSLOT → iwrc × List MMAPSLOT
  | [] => (none, [ns])
  | s :: rest =>
    if IW_RANGES_OVERLAP s.off (s.off + s.maxlen) ns.off (ns.off + ns.maxlen) then
      (some Err.MMAP_OVERLAP, s :: rest)
    else if ns.off < s.off then (none, ns :: s :: rest)
    else
      let r := _exfile_add_mmap_loop ns rest
      (r.1, s :: r.2)

/-- `_exfile_add_mmap`: alignment check, `maxlen` adjustment, slot
realisation, then ordered insertion with overlap detection.  On any
failure the state is unchanged (the C code frees the candidate slot). -/
def _exfile_add_mmap (env : Env) (st : EXF) (off maxlen0 : Int) : iwrc × EXF :=
  if off % st.psize ≠ 0 then (some Err.NOT_ALIGNED, st)
  else
    let maxlen := _exfile_adjust_maxlen st.psize off maxlen0
    if maxlen = 0 then (some Err.OUT_OF_BOUNDS, st)
    else
      let ri := _exfile_initmmap_slot_lw env st.fsize { off := off, len := 0, maxlen := maxlen }
      if ri.1 ≠ none then (ri.1, st)
      else
        let r := _exfile_add_mmap_loop ri.2 st.mmslots
        if r.1 ≠ none then (r.1, st)
        else (none, { st with mmslots := r.2 })

/-- The slot teardown of `_exfile_close`: each slot is removed via
`_exfile_remove_mmap_wl`, whose `munmap` can fail; errors accumulate
first-error-wins while the walk continues. -/
def _exfile_close_slots (env : Env) : List MMAPSLOT → iwrc
  | [] => none
  | s :: rest =>
    let rc : iwrc := if s.len ≠ 0 ∧ env.munmapOk = false then some Err.ERRNO else none
    IWRC (_exfile_close_slots env rest) rc

/-- `_exfile_close` over the facade's `impl` pointer (`Option EXF`):
a null `impl` returns success immediately; otherwise all slots are
removed, the backend is closed and the policy deactivated (both modelled
as succeeding) and `impl` is set to null. -/
def _exfile_close (env : Env) (f : Option EXF) : iwrc × Option EXF :=
  match f with
  | none => (none, none)
  | some impl => (_exfile_close_slots env impl.mmslots, none)

/-- Specification of the write walk: starting from `(data, off, wp)` it
advances `off` and decreases `wp` in lockstep by some `k` and overwrites
exactly the file interval `[off, off + k)` with the corresponding bytes
of `buf` (buffer position `siz - wp` maps to file position `off`).  This
holds for an arbitrary slot list: every gap/`memcpy` step transfers the
next contiguous chunk. -/
def WriteLoopSpec (buf : Int → Nat) (siz : Int) (slots : List MMAPSLOT) : Prop :=
  ∀ (data : Int → Nat) (off wp : Int), 0 ≤ wp →
  ∃ k, 0 ≤ k ∧ k ≤ wp ∧
    (_exfile_write_loop buf siz slots data off wp).2.1 = off + k ∧
    (_exfile_write_loop buf siz slots data off wp).2.2 = wp - k ∧
    ∀ p, (_exfile_write_loop buf siz slots data off wp).1 p =
      if off ≤ p ∧ p < off + k then buf (p - (off + wp - siz)) else data p

/-- Specification of the read walk: starting from `(buf, off, rp)` it
advances `off` and decreases `rp` in lockstep by some `k` and fills
exactly the buffer interval `[siz - rp, siz - rp + k)` with the
corresponding file bytes (buffer position `siz - rp` maps to file
position `off`).  Holds for an arbitrary slot list. -/
def ReadLoopSpec (data : Int → Nat) (siz : Int) (slots : List MMAPSLOT) : Prop :=
  ∀ (buf : Int → Nat) (off rp : Int), 0 ≤ rp →
  ∃ k, 0 ≤ k ∧ k ≤ rp ∧
    (_exfile_read_loop data siz slots buf off rp).2.1 = off + k ∧
    (_exfile_read_loop data siz slots buf off rp).2.2 = rp - k ∧
    ∀ i, (_exfile_read_loop data siz slots buf off rp).1 i =
      if siz - rp ≤ i ∧ i < siz - rp + k then data (i + (off + rp - siz)) else buf i

/-- Environment in which every system call succeeds. -/
def env_ok : Env := ⟨true, true, true⟩

/-- Environment in which `mmap` fails but `ftruncate` and `munmap`
succeed. -/
def env_mmapfail : Env := ⟨true, false, true⟩

/-- All-zero file contents / buffer. -/
def zeroData : Int → Nat := fun _ => 0

/-- A constant source buffer. -/
def buf7 : Int → Nat := fun _ => 7

/-- The default resize policy instantiated at page size 4096. -/
def default_policy4k : Int → Int → Int := fun ns _ => IW_ROUNDUP ns 4096

/-- An empty writable file on 4096-byte pages with the default policy
and no slots. -/
def st_c1 : EXF :=
  { fsize := 0, psize := 4096, maxoff := 0, owrite := true, mmslots := [],
    data := zeroData, rspolicy := default_policy4k }

/-- An empty writable file with one registered (unrealised) slot
`[0, 4096)`. -/
def st_c2 : EXF :=
  { fsize := 0, psize := 4096, maxoff := 0, owrite := true, mmslots := [⟨0, 0, 4096⟩],
    data := zeroData, rspolicy := default_policy4k }

/-- A one-page read-only file. -/
def st_c9 : EXF :=
  { fsize := 4096, psize := 4096, maxoff := 0, owrite := false, mmslots := [],
    data := zeroData, rspolicy := default_policy4k }

/-- An empty writable file whose policy always proposes 8192 bytes and
whose `maxoff` is one 4096-byte page. -/
def st_c4 : EXF :=
  { fsize := 0, psize := 4096, maxoff := 4096, owrite := true, mmslots := [],
    data := zeroData, rspolicy := fun _ _ => 8192 }

/-- A writable file on 2048-byte pages with one registered slot
`[0, 4096)`. -/
def st_c5 : EXF :=
  { fsize := 0, psize := 2048, maxoff := 0, owrite := true, mmslots := [⟨0, 0, 4096⟩],
    data := zeroData, rspolicy := default_policy4k }

/-- An empty writable file with `maxoff = 8192` on 4096-byte pages. -/
def st_c8 : EXF :=
  { fsize := 0, psize := 4096, maxoff := 8192, owrite := true, mmslots := [],
    data := zeroData, rspolicy := default_policy4k }


theorem le_IW_ROUNDUP {x v : Int} (hv : 0 < v) : x ≤ IW_ROUNDUP x v := by
  unfold IW_ROUNDUP
  have h1 : v * ((x + v - 1) / v) + (x + v - 1) % v = x + v - 1 :=
    Int.ediv_add_emod _ _
  have h2 : (x + v - 1) % v < v := Int.emod_lt_of_pos _ hv
  linarith

theorem IW_ROUNDUP_lt {x v : Int} (hv : 0 < v) : IW_ROUNDUP x v < x + v := by
  unfold IW_ROUNDUP
  have h1 : v * ((x + v - 1) / v) + (x + v - 1) % v = x + v - 1 :=
    Int.ediv_add_emod _ _
  have h3 : 0 ≤ (x + v - 1) % v := Int.emod_nonneg _ (by omega)
  linarith

theorem dvd_IW_ROUNDUP (x v : Int) : v ∣ IW_ROUNDUP x v :=
  dvd_mul_left v _

theorem IW_ROUNDUP_eq_self {x v : Int} (hv : 0 < v) (h : v ∣ x) : IW_ROUNDUP x v = x := by
  obtain ⟨c, rfl⟩ := h
  unfold IW_ROUNDUP
  have hb : v ≠ 0 := by omega
  have hr : v * c + v - 1 = (v - 1) + v * c := by ring
  rw [hr, Int.add_mul_ediv_left _ _ hb,
    Int.ediv_eq_zero_of_lt (by omega) (by omega)]
  ring

theorem IW_ROUNDUP_le {x v m : Int} (hv : 0 < v) (hd : v ∣ m) (hx : x ≤ m) :
    IW_ROUNDUP x v ≤ m := by
  have h1 : IW_ROUNDUP x v ≤ IW_ROUNDUP m v := by
    unfold IW_ROUNDUP
    have h2 := Int.ediv_le_ediv hv (show x + v - 1 ≤ m + v - 1 by omega)
    exact mul_le_mul_of_nonneg_right h2 (by omega)
  calc IW_ROUNDUP x v ≤ IW_ROUNDUP m v := h1
    _ = m := IW_ROUNDUP_eq_self hv hd

/-- `_exfile_initmmap_slot_lw` never moves a slot: `off` and `maxlen`
are preserved unconditionally. -/
theorem initmmap_slot_off_maxlen (env : Env) (fsize : Int) (s : MMAPSLOT) :
    (_exfile_initmmap_slot_lw env fsize s).2.off = s.off ∧
    (_exfile_initmmap_slot_lw env fsize s).2.maxlen = s.maxlen := by
  simp only [_exfile_initmmap_slot_lw]
  split_ifs <;> exact ⟨rfl, rfl⟩

/-- On success, the realised slot length satisfies the §3 invariant
`len = min(maxlen, max(0, fsize - off))`. -/
theorem initmmap_slot_len (env : Env) (fsize : Int) (s : MMAPSLOT) (hml : 0 ≤ s.maxlen)
    (h : (_exfile_initmmap_slot_lw env fsize s).1 = none) :
    (_exfile_initmmap_slot_lw env fsize s).2.len = min s.maxlen (max 0 (fsize - s.off)) := by
  simp only [_exfile_initmmap_slot_lw] at h ⊢
  split_ifs at h ⊢ <;> simp_all <;> omega

/-- An all-succeeding environment realises any slot successfully. -/
theorem initmmap_slot_ok (env : Env) (fsize : Int) (s : MMAPSLOT)
    (hm : env.mmapOk = true) (hu : env.munmapOk = true) :
    (_exfile_initmmap_slot_lw env fsize s).1 = none := by
  simp only [_exfile_initmmap_slot_lw]
  split_ifs <;> simp_all

/-- `realise_all` with an all-succeeding environment succeeds. -/
theorem initmmap_ok (env : Env) (fsize : Int) (slots : List MMAPSLOT)
    (hm : env.mmapOk = true) (hu : env.munmapOk = true) :
    (_exfile_initmmap_lw env fsize slots).1 = none := by
  induction slots with
  | nil => rfl
  | cons s rest ih =>
    simp only [_exfile_initmmap_lw]
    rw [if_neg (by simp [initmmap_slot_ok env fsize s hm hu])]
    exact ih

/-- On success of `realise_all`, every slot satisfies the §3 length
invariant against `fsize`. -/
theorem initmmap_len (env : Env) (fsize : Int) (slots : List MMAPSLOT)
    (hml : ∀ s ∈ slots, 0 ≤ s.maxlen)
    (h : (_exfile_initmmap_lw env fsize slots).1 = none) :
    ∀ s' ∈ (_exfile_initmmap_lw env fsize slots).2,
      s'.len = min s'.maxlen (max 0 (fsize - s'.off)) := by
  induction slots with
  | nil => intro s' hs'; simp [_exfile_initmmap_lw] at hs'
  | cons s rest ih =>
    simp only [_exfile_initmmap_lw] at h ⊢
    by_cases h1 : (_exfile_initmmap_slot_lw env fsize s).1 = none
    · rw [if_neg (by simp [h1])] at h ⊢
      intro t ht
      simp only [List.mem_cons] at ht
      rcases ht with ht | ht
      · subst ht
        have h2 := initmmap_slot_len env fsize s (hml s (by simp)) h1
        have h3 := initmmap_slot_off_maxlen env fsize s
        rw [h2, h3.1, h3.2]
      · exact ih (fun u hu => hml u (by simp [hu])) h t ht
    · rw [if_pos (by simp [h1])] at h
      exact absurd h h1

/-- Realisation touches only `len`: the slots' `off`/`maxlen` sequence
is preserved. -/
theorem initmmap_off_maxlen (env : Env) (fsize : Int) (slots : List MMAPSLOT) :
    ((_exfile_initmmap_lw env fsize slots).2.map (fun s => (s.off, s.maxlen))) =
      slots.map (fun s => (s.off, s.maxlen)) := by
  induction slots with
  | nil => rfl
  | cons s rest ih =>
    simp only [_exfile_initmmap_lw]
    have h3 := initmmap_slot_off_maxlen env fsize s
    split_ifs <;> simp [h3.1, h3.2, ih]

/-- Slot realisation produces no error code other than `ERRNO`. -/
theorem initmmap_slot_err (env : Env) (fsize : Int) (s : MMAPSLOT) :
    (_exfile_initmmap_slot_lw env fsize s).1 = none ∨
    (_exfile_initmmap_slot_lw env fsize s).1 = some Err.ERRNO := by
  simp only [_exfile_initmmap_slot_lw]
  split_ifs <;> simp

/-- `realise_all` produces no error code other than `ERRNO`. -/
theorem initmmap_err (env : Env) (fsize : Int) (slots : List MMAPSLOT) :
    (_exfile_initmmap_lw env fsize slots).1 = none ∨
    (_exfile_initmmap_lw env fsize slots).1 = some Err.ERRNO := by
  induction slots with
  | nil => exact Or.inl rfl
  | cons s rest ih =>
    simp only [_exfile_initmmap_lw]
    rcases initmmap_slot_err env fsize s with h | h
    · rw [if_neg (by simp [h])]; exact ih
    · rw [if_pos (by simp [h])]; exact Or.inr h

/-- `_exfile_truncate_lw` changes only `fsize` and the slot list. -/
theorem truncate_pre (env : Env) (st : EXF) (x : Int) :
    (_exfile_truncate_lw env st x).2.psize = st.psize ∧
    (_exfile_truncate_lw env st x).2.maxoff = st.maxoff ∧
    (_exfile_truncate_lw env st x).2.owrite = st.owrite ∧
    (_exfile_truncate_lw env st x).2.data = st.data ∧
    (_exfile_truncate_lw env st x).2.rspolicy = st.rspolicy := by
  simp only [_exfile_truncate_lw, _exfile_truncfail]
  split_ifs <;> simp_all

/-- On success, `_exfile_truncate_lw` leaves `fsize` at the page
round-up of the request, except when the request already equals the
current size (the `impl->fsize == size` early return, which precedes the
round-up). -/
theorem truncate_success_fsize (env : Env) (st : EXF) (x : Int) (hps : 0 < st.psize)
    (h : (_exfile_truncate_lw env st x).1 = none) :
    (_exfile_truncate_lw env st x).2.fsize = IW_ROUNDUP x st.psize ∨
    ((_exfile_truncate_lw env st x).2.fsize = x ∧ st.fsize = x) := by
  simp only [_exfile_truncate_lw, _exfile_truncfail, IWRC] at h ⊢
  split_ifs at h ⊢ <;> (try simp_all) <;> (try omega) <;>
    (rcases hrc : (_exfile_initmmap_lw env (IW_ROUNDUP x st.psize) st.mmslots).1 with _ | e0 <;>
      simp_all)

/-- On failure, `_exfile_truncate_lw` restores `fsize` — except on the
grow path when `ftruncate` succeeded and slot re-realisation failed,
where `fsize` keeps the new (rounded) value. -/
theorem truncate_fail_fsize (env : Env) (st : EXF) (x : Int) (e : Err)
    (h : (_exfile_truncate_lw env st x).1 = some e) :
    (_exfile_truncate_lw env st x).2.fsize = st.fsize ∨
    ((_exfile_truncate_lw env st x).2.fsize = IW_ROUNDUP x st.psize ∧
      st.fsize < IW_ROUNDUP x st.psize ∧ env.ftruncOk = true) := by
  simp only [_exfile_truncate_lw, _exfile_truncfail, IWRC] at h ⊢
  split_ifs at h ⊢ <;> (try simp_all) <;> (try omega) <;>
    (rcases hrc : (_exfile_initmmap_lw env (IW_ROUNDUP x st.psize) st.mmslots).1 with _ | e0 <;>
      simp_all)

/-- Truncation succeeds when the file is writable, the round-up of the
request stays within `maxoff` (or `maxoff` is unlimited), and the system
calls succeed. -/
theorem truncate_ok (env : Env) (st : EXF) (x : Int)
    (hw : st.owrite = true) (hft : env.ftruncOk = true)
    (hm : env.mmapOk = true) (hu : env.munmapOk = true)
    (hmax : st.maxoff = 0 ∨ IW_ROUNDUP x st.psize ≤ st.maxoff) :
    (_exfile_truncate_lw env st x).1 = none := by
  have hin := initmmap_ok env (IW_ROUNDUP x st.psize) st.mmslots hm hu
  simp only [_exfile_truncate_lw]
  rcases hmax with hmax | hmax <;>
    (split_ifs <;> (try simp_all) <;> omega)

/-- `_exfile_truncate_lw` never fails with `MAXOFF` when the round-up of
the request is within `maxoff`. -/
theorem truncate_ne_maxoff (env : Env) (st : EXF) (x : Int)
    (hmax : st.maxoff = 0 ∨ IW_ROUNDUP x st.psize ≤ st.maxoff) :
    (_exfile_truncate_lw env st x).1 ≠ some Err.MAXOFF := by
  have hin := initmmap_err env (IW_ROUNDUP x st.psize) st.mmslots
  simp only [_exfile_truncate_lw, _exfile_truncfail, IWRC]
  rcases hmax with hmax | hmax <;>
    (split_ifs <;> (try simp_all) <;> (try omega) <;>
      (rcases hrc : (_exfile_initmmap_lw env (IW_ROUNDUP x st.psize) st.mmslots).1 with _ | e0 <;>
        simp_all))

/-- `_exfile_ensure_size_lw` changes only `fsize` and the slot list. -/
theorem ensure_pre (env : Env) (st : EXF) (sz : Int) :
    (_exfile_ensure_size_lw env st sz).2.psize = st.psize ∧
    (_exfile_ensure_size_lw env st sz).2.maxoff = st.maxoff ∧
    (_exfile_ensure_size_lw env st sz).2.owrite = st.owrite ∧
    (_exfile_ensure_size_lw env st sz).2.data = st.data ∧
    (_exfile_ensure_size_lw env st sz).2.rspolicy = st.rspolicy := by
  simp only [_exfile_ensure_size_lw]
  split_ifs <;>
    first
    | exact ⟨rfl, rfl, rfl, rfl, rfl⟩
    | exact truncate_pre env st st.maxoff
    | exact truncate_pre env st (st.rspolicy sz st.fsize)

/-- After a successful `_exfile_ensure_size_lw`, the file size is at
least the requested size. -/
theorem ensure_success_ge (env : Env) (st : EXF) (sz : Int) (hps : 0 < st.psize)
    (h : (_exfile_ensure_size_lw env st sz).1 = none) :
    sz ≤ (_exfile_ensure_size_lw env st sz).2.fsize := by
  simp only [_exfile_ensure_size_lw] at h ⊢
  split_ifs at h ⊢ with h1 h2 h3 h4
  · exact h1
  · rcases truncate_success_fsize env st st.maxoff hps h with hf | hf
    · have := le_IW_ROUNDUP (x := st.maxoff) (v := st.psize) hps
      omega
    · omega
  · rcases truncate_success_fsize env st (st.rspolicy sz st.fsize) hps h with hf | hf
    · have := le_IW_ROUNDUP (x := st.rspolicy sz st.fsize) (v := st.psize) hps
      omega
    · omega

/-- When the file is already large enough, `ensure_size` is a no-op and
its result does not depend on the resize policy (the policy is never
invoked). -/
theorem ensure_noop (env : Env) (st : EXF) (sz : Int) (h : st.fsize ≥ sz) :
    ∀ p, _exfile_ensure_size_lw env { st with rspolicy := p } sz =
      (none, { st with rspolicy := p }) := by
  intro p
  simp [_exfile_ensure_size_lw, h]

/-- `ensure_size` succeeds when the policy returns a valid size, the
file is writable, the target fits under `maxoff`, and system calls
succeed. -/
theorem ensure_ok (env : Env) (st : EXF) (sz : Int) (hps : 0 < st.psize)
    (hv1 : sz ≤ st.rspolicy sz st.fsize)
    (hv2 : (st.rspolicy sz st.fsize) % st.psize = 0)
    (hw : st.owrite = true) (hft : env.ftruncOk = true)
    (hm : env.mmapOk = true) (hu : env.munmapOk = true)
    (hmax : st.maxoff = 0 ∨ (st.psize ∣ st.maxoff ∧ sz ≤ st.maxoff)) :
    (_exfile_ensure_size_lw env st sz).1 = none := by
  simp only [_exfile_ensure_size_lw]
  split_ifs with h1 h2 h3 h4
  · rfl
  · exact absurd h2 (by push_neg; exact ⟨hv1, by simp [hv2]⟩)
  · rcases hmax with hmax | hmax
    · exact absurd h3.1 (by simp [hmax])
    · omega
  · rcases hmax with hmax | hmax
    · exact absurd h3.1 (by simp [hmax])
    · exact truncate_ok env st st.maxoff hw hft hm hu
        (Or.inr (by rw [IW_ROUNDUP_eq_self hps hmax.1]))
  · by_cases hz : st.maxoff = 0
    · exact truncate_ok env st (st.rspolicy sz st.fsize) hw hft hm hu (Or.inl hz)
    · refine truncate_ok env st (st.rspolicy sz st.fsize) hw hft hm hu (Or.inr ?_)
      rw [IW_ROUNDUP_eq_self hps (Int.dvd_of_emod_eq_zero hv2)]
      push_neg at h3
      exact h3 hz

theorem write_loop_spec_zero (buf : Int → Nat) (siz : Int) (data : Int → Nat) (off wp : Int)
    (hwp : 0 ≤ wp) :
    ∃ k, 0 ≤ k ∧ k ≤ wp ∧ ((data, off, wp) : (Int → Nat) × Int × Int).2.1 = off + k ∧
      ((data, off, wp) : (Int → Nat) × Int × Int).2.2 = wp - k ∧
      ∀ p, ((data, off, wp) : (Int → Nat) × Int × Int).1 p =
        if off ≤ p ∧ p < off + k then buf (p - (off + wp - siz)) else data p := by
  refine ⟨0, le_refl _, hwp, by dsimp only; ring, by dsimp only; ring, ?_⟩
  intro p
  dsimp only
  rw [if_neg (by omega)]

theorem write_loop_absorb (buf : Int → Nat) (siz : Int) (rest : List MMAPSLOT)
    (h : WriteLoopSpec buf siz rest)
    (data D : Int → Nat) (off wp a off2 wp2 : Int)
    (ha0 : 0 ≤ a) (ha : a ≤ wp) (ho2 : off2 = off + a) (hw2 : wp2 = wp - a)
    (hD : ∀ p, D p = if off ≤ p ∧ p < off + a then buf (p - (off + wp - siz)) else data p) :
    ∃ k, 0 ≤ k ∧ k ≤ wp ∧
      (_exfile_write_loop buf siz rest D off2 wp2).2.1 = off + k ∧
      (_exfile_write_loop buf siz rest D off2 wp2).2.2 = wp - k ∧
      ∀ p, (_exfile_write_loop buf siz rest D off2 wp2).1 p =
        if off ≤ p ∧ p < off + k then buf (p - (off + wp - siz)) else data p := by
  subst ho2 hw2
  obtain ⟨k', hk0, hk1, ho, hw, hf⟩ := h D (off + a) (wp - a) (by omega)
  refine ⟨a + k', by omega, by omega, by rw [ho]; ring, by rw [hw]; ring, ?_⟩
  intro p
  rw [hf p, hD p]
  split_ifs <;> first | rfl | (congr 1; omega) | omega

/-- The write walk satisfies its specification for every slot list. -/
theorem write_loop_spec (buf : Int → Nat) (siz : Int) (slots : List MMAPSLOT) :
    WriteLoopSpec buf siz slots := by
  induction slots with
  | nil =>
    intro data off wp hwp
    exact write_loop_spec_zero buf siz data off wp hwp
  | cons s rest ih =>
    intro data off wp hwp
    simp only [_exfile_write_loop]
    by_cases hw0 : wp ≤ 0
    · rw [if_pos hw0]
      exact write_loop_spec_zero buf siz data off wp hwp
    · rw [if_neg hw0]
      by_cases hbrk : s.len = 0 ∨ wp + off ≤ s.off
      · rw [if_pos hbrk]
        exact write_loop_spec_zero buf siz data off wp hwp
      · rw [if_neg hbrk]
        by_cases h1 : s.off > off
        · rw [if_pos h1]
          dsimp only
          by_cases h2 : wp - min wp (s.off - off) > 0 ∧ s.off ≤ off + min wp (s.off - off) ∧
              s.off + s.len > off + min wp (s.off - off)
          · rw [if_pos h2]
            dsimp only
            refine write_loop_absorb buf siz rest ih data _ off wp
              (min wp (s.off - off) +
                min (wp - min wp (s.off - off)) (s.off + s.len - (off + min wp (s.off - off))))
              _ _ (by omega) (by omega) (by omega) (by omega) ?_
            intro p
            simp only [memcpyToFile]
            split_ifs <;> first | rfl | (congr 1; omega) | omega
          · rw [if_neg h2]
            dsimp only
            refine write_loop_absorb buf siz rest ih data _ off wp
              (min wp (s.off - off)) _ _ (by omega) (by omega) rfl rfl ?_
            intro p
            simp only [memcpyToFile]
            split_ifs <;> first | rfl | (congr 1; omega) | omega
        · rw [if_neg h1]
          dsimp only
          by_cases h2 : wp > 0 ∧ s.off ≤ off ∧ s.off + s.len > off
          · rw [if_pos h2]
            dsimp only
            refine write_loop_absorb buf siz rest ih data _ off wp
              (min wp (s.off + s.len - off)) _ _ (by omega) (by omega) rfl rfl ?_
            intro p
            simp only [memcpyToFile]
            split_ifs <;> first | rfl | (congr 1; omega) | omega
          · rw [if_neg h2]
            refine write_loop_absorb buf siz rest ih data _ off wp 0 _ _
              (le_refl _) (by omega) (by ring) (by ring) ?_
            intro p
            rw [if_neg (by omega)]

theorem read_loop_spec_zero (data : Int → Nat) (siz : Int) (buf : Int → Nat) (off rp : Int)
    (hrp : 0 ≤ rp) :
    ∃ k, 0 ≤ k ∧ k ≤ rp ∧ ((buf, off, rp) : (Int → Nat) × Int × Int).2.1 = off + k ∧
      ((buf, off, rp) : (Int → Nat) × Int × Int).2.2 = rp - k ∧
      ∀ i, ((buf, off, rp) : (Int → Nat) × Int × Int).1 i =
        if siz - rp ≤ i ∧ i < siz - rp + k then data (i + (off + rp - siz)) else buf i := by
  refine ⟨0, le_refl _, hrp, by dsimp only; ring, by dsimp only; ring, ?_⟩
  intro i
  dsimp only
  rw [if_neg (by omega)]

theorem read_loop_absorb (data : Int → Nat) (siz : Int) (rest : List MMAPSLOT)
    (h : ReadLoopSpec data siz rest)
    (buf B : Int → Nat) (off rp a off2 rp2 : Int)
    (ha0 : 0 ≤ a) (ha : a ≤ rp) (ho2 : off2 = off + a) (hr2 : rp2 = rp - a)
    (hB : ∀ i, B i = if siz - rp ≤ i ∧ i < siz - rp + a then data (i + (off + rp - siz)) else buf i) :
    ∃ k, 0 ≤ k ∧ k ≤ rp ∧
      (_exfile_read_loop data siz rest B off2 rp2).2.1 = off + k ∧
      (_exfile_read_loop data siz rest B off2 rp2).2.2 = rp - k ∧
      ∀ i, (_exfile_read_loop data siz rest B off2 rp2).1 i =
        if siz - rp ≤ i ∧ i < siz - rp + k then data (i + (off + rp - siz)) else buf i := by
  subst ho2 hr2
  obtain ⟨k', hk0, hk1, ho, hw, hf⟩ := h B (off + a) (rp - a) (by omega)
  refine ⟨a + k', by omega, by omega, by rw [ho]; ring, by rw [hw]; ring, ?_⟩
  intro i
  rw [hf i, hB i]
  split_ifs <;> first | rfl | (congr 1; omega) | omega

/-- The read walk satisfies its specification for every slot list. -/
theorem read_loop_spec (data : Int → Nat) (siz : Int) (slots : List MMAPSLOT) :
    ReadLoopSpec data siz slots := by
  induction slots with
  | nil =>
    intro buf off rp hrp
    exact read_loop_spec_zero data siz buf off rp hrp
  | cons s rest ih =>
    intro buf off rp hrp
    simp only [_exfile_read_loop]
    by_cases hr0 : rp ≤ 0
    · rw [if_pos hr0]
      exact read_loop_spec_zero data siz buf off rp hrp
    · rw [if_neg hr0]
      by_cases hbrk : s.len = 0 ∨ rp + off ≤ s.off
      · rw [if_pos hbrk]
        exact read_loop_spec_zero data siz buf off rp hrp
      · rw [if_neg hbrk]
        by_cases h1 : s.off > off
        · rw [if_pos h1]
          dsimp only
          by_cases h2 : rp - min rp (s.off - off) > 0 ∧ s.off ≤ off + min rp (s.off - off) ∧
              s.off + s.len > off + min rp (s.off - off)
          · rw [if_pos h2]
            dsimp only
            refine read_loop_absorb data siz rest ih buf _ off rp
              (min rp (s.off - off) +
                min (rp - min rp (s.off - off)) (s.off + s.len - (off + min rp (s.off - off))))
              _ _ (by omega) (by omega) (by omega) (by omega) ?_
            intro i
            simp only [memcpyFromFile]
            split_ifs <;> first | rfl | (congr 1; omega) | omega
          · rw [if_neg h2]
            dsimp only
            refine read_loop_absorb data siz rest ih buf _ off rp
              (min rp (s.off - off)) _ _ (by omega) (by omega) rfl rfl ?_
            intro i
            simp only [memcpyFromFile]
            split_ifs <;> first | rfl | (congr 1; omega) | omega
        · rw [if_neg h1]
          dsimp only
          by_cases h2 : rp > 0 ∧ s.off ≤ off ∧ s.off + s.len > off
          · rw [if_pos h2]
            dsimp only
            refine read_loop_absorb data siz rest ih buf _ off rp
              (min rp (s.off + s.len - off)) _ _ (by omega) (by omega) rfl rfl ?_
            intro i
            simp only [memcpyFromFile]
            split_ifs <;> first | rfl | (congr 1; omega) | omega
          · rw [if_neg h2]
            refine read_loop_absorb data siz rest ih buf _ off rp 0 _ _
              (le_refl _) (by omega) (by ring) (by ring) ?_
            intro i
            rw [if_neg (by omega)]

/-- The read walk leaves everything untouched when the remaining count
is non-positive (the C loop guard `rp > 0` fails immediately). -/
theorem read_loop_nonpos (data : Int → Nat) (siz : Int) (slots : List MMAPSLOT)
    (buf : Int → Nat) (off rp : Int) (hrp : rp ≤ 0) :
    _exfile_read_loop data siz slots buf off rp = (buf, off, rp) := by
  cases slots with
  | nil => rfl
  | cons s rest => simp [_exfile_read_loop, hrp]

/-- The write tail transfers all `siz` bytes: the result is success,
`*sp = siz`, only `data` changes, and the file contents are `buf`
written over `[off, off + siz)`. -/
theorem write_go_spec (st1 : EXF) (off : Int) (buf : Int → Nat) (siz : Int) (hsiz : 0 ≤ siz) :
    (_exfile_write_go st1 off buf siz).1 = none ∧
    (_exfile_write_go st1 off buf siz).2.1 = siz ∧
    (_exfile_write_go st1 off buf siz).2.2.fsize = st1.fsize ∧
    (_exfile_write_go st1 off buf siz).2.2.psize = st1.psize ∧
    (_exfile_write_go st1 off buf siz).2.2.maxoff = st1.maxoff ∧
    (_exfile_write_go st1 off buf siz).2.2.owrite = st1.owrite ∧
    (_exfile_write_go st1 off buf siz).2.2.mmslots = st1.mmslots ∧
    (_exfile_write_go st1 off buf siz).2.2.rspolicy = st1.rspolicy ∧
    ∀ p, (_exfile_write_go st1 off buf siz).2.2.data p =
      if off ≤ p ∧ p < off + siz then buf (p - off) else st1.data p := by
  obtain ⟨k, hk0, hk1, ho, hw, hf⟩ :=
    write_loop_spec buf siz st1.mmslots st1.data off siz hsiz
  simp only [_exfile_write_go]
  rw [ho, hw]
  by_cases hkx : siz - k > 0
  · rw [if_pos hkx]
    refine ⟨trivial, by dsimp only; ring, trivial, trivial, trivial, trivial, trivial,
      trivial, ?_⟩
    intro p
    dsimp only
    simp only [memcpyToFile]
    rw [hf p]
    split_ifs <;> first | (congr 1; omega) | (exfalso; omega) | rfl
  · rw [if_neg hkx]
    refine ⟨trivial, by dsimp only; omega, trivial, trivial, trivial, trivial, trivial,
      trivial, ?_⟩
    intro p
    dsimp only
    rw [hf p]
    split_ifs <;> first | (congr 1; omega) | (exfalso; omega) | rfl

/-- The read tail with a non-negative (post-shrink) request count reads
all `siz` bytes of `[off, off + siz)` into the buffer. -/
theorem read_go_pos (st : EXF) (off : Int) (buf0 : Int → Nat) (siz : Int) (hsiz : 0 ≤ siz) :
    (_exfile_read_go st off buf0 siz).1 = none ∧
    (_exfile_read_go st off buf0 siz).2.1 = siz ∧
    ∀ i, 0 ≤ i → i < siz → (_exfile_read_go st off buf0 siz).2.2 i = st.data (off + i) := by
  obtain ⟨k, hk0, hk1, ho, hw, hf⟩ :=
    read_loop_spec st.data siz st.mmslots buf0 off siz hsiz
  simp only [_exfile_read_go]
  rw [ho, hw]
  by_cases hkx : siz - k > 0
  · rw [if_pos hkx]
    refine ⟨trivial, by dsimp only; ring, ?_⟩
    intro i hi0 hi1
    dsimp only
    simp only [memcpyFromFile]
    rw [hf i]
    split_ifs <;> first | (congr 1; omega) | (exfalso; omega) | rfl
  · rw [if_neg hkx]
    refine ⟨trivial, by dsimp only; omega, ?_⟩
    intro i hi0 hi1
    dsimp only
    rw [hf i]
    split_ifs <;> first | (congr 1; omega) | (exfalso; omega) | rfl

/-- The read tail with a negative shrunk count (the `off > fsize` case)
reports zero bytes, succeeds and leaves the buffer alone. -/
theorem read_go_neg (st : EXF) (off : Int) (buf0 : Int → Nat) (siz : Int) (hsiz : siz ≤ 0) :
    (_exfile_read_go st off buf0 siz).1 = none ∧
    (_exfile_read_go st off buf0 siz).2.1 = 0 ∧
    (_exfile_read_go st off buf0 siz).2.2 = buf0 := by
  simp only [_exfile_read_go]
  rw [read_loop_nonpos st.data siz st.mmslots buf0 off siz hsiz]
  dsimp only
  rw [if_neg (by omega)]
  exact ⟨trivial, by omega, rfl⟩

/-- `_exfile_read` on valid arguments: no error, the reported count is
the request clipped to the remaining file size, and the returned bytes
are the file contents at `[off, off + count)`. -/
theorem read_spec (st : EXF) (off : Int) (buf0 : Int → Nat) (siz0 : Int)
    (hoff : 0 ≤ off) (hsiz : 0 ≤ siz0) :
    (_exfile_read st off buf0 siz0).1 = none ∧
    (_exfile_read st off buf0 siz0).2.1 = min siz0 (max 0 (st.fsize - off)) ∧
    ∀ i, 0 ≤ i → i < min siz0 (max 0 (st.fsize - off)) →
      (_exfile_read st off buf0 siz0).2.2 i = st.data (off + i) := by
  simp only [_exfile_read]
  rw [if_neg (by omega)]
  by_cases hsh : off + siz0 > st.fsize
  · rw [if_pos hsh]
    by_cases hne : st.fsize - off ≤ 0
    · obtain ⟨h1, h2, h3⟩ := read_go_neg st off buf0 (st.fsize - off) hne
      exact ⟨h1, by omega, fun i hi0 hi1 => absurd hi1 (by omega)⟩
    · obtain ⟨h1, h2, h3⟩ := read_go_pos st off buf0 (st.fsize - off) (by omega)
      exact ⟨h1, by omega, fun i hi0 hi1 => h3 i hi0 (by omega)⟩
  · rw [if_neg hsh]
    obtain ⟨h1, h2, h3⟩ := read_go_pos st off buf0 siz0 hsiz
    exact ⟨h1, by omega, fun i hi0 hi1 => h3 i hi0 (by omega)⟩

/-- A successful `_exfile_write` implies: the offset was valid, all
bytes were reported written, the file is large enough to hold the write,
and the contents are `buf` over `[off, off + siz)` on top of the old
contents. -/
theorem write_success (env : Env) (st : EXF) (off : Int) (buf : Int → Nat) (siz : Int)
    (hps : 0 < st.psize) (hsiz : 0 ≤ siz)
    (h : (_exfile_write env st off buf siz).1 = none) :
    0 ≤ off ∧
    (_exfile_write env st off buf siz).2.1 = siz ∧
    off + siz ≤ (_exfile_write env st off buf siz).2.2.fsize ∧
    ∀ p, (_exfile_write env st off buf siz).2.2.data p =
      if off ≤ p ∧ p < off + siz then buf (p - off) else st.data p := by
  simp only [_exfile_write] at h ⊢
  by_cases hob : off < 0 ∨ off + siz < 0
  · rw [if_pos hob] at h
    exact absurd h (by simp)
  rw [if_neg hob] at h ⊢
  by_cases hmo : st.maxoff ≠ 0 ∧ off + siz > st.maxoff
  · rw [if_pos hmo] at h
    exact absurd h (by simp)
  rw [if_neg hmo] at h ⊢
  by_cases hgt : off + siz > st.fsize
  · rw [if_pos hgt] at h ⊢
    by_cases hr : (_exfile_ensure_size_lw env st (off + siz)).1 ≠ none
    · rw [if_pos hr] at h
      exact absurd h hr
    · rw [if_neg hr] at h ⊢
      push_neg at hr
      obtain ⟨g1, g2, g3, g4, g5, g6, g7, g8, g9⟩ :=
        write_go_spec (_exfile_ensure_size_lw env st (off + siz)).2 off buf siz hsiz
      have hge := ensure_success_ge env st (off + siz) hps hr
      have hdata := (ensure_pre env st (off + siz)).2.2.2.1
      refine ⟨by omega, g2, by omega, ?_⟩
      intro p
      rw [g9 p, hdata]
  · rw [if_neg hgt] at h ⊢
    rw [if_neg (by simp)] at h ⊢
    dsimp only at h ⊢
    obtain ⟨g1, g2, g3, g4, g5, g6, g7, g8, g9⟩ := write_go_spec st off buf siz hsiz
    exact ⟨by omega, g2, by omega, g9⟩

/-- Under the registry invariant (sorted, pairwise disjoint, positive
`maxlen`), the insertion walk reports `MMAP_OVERLAP` whenever the
candidate overlaps any existing slot: the walk only skips checking slots
that lie past the insertion point, and those cannot overlap. -/
theorem add_loop_overlap (ns : MMAPSLOT) (hns : 0 < ns.maxlen) :
    ∀ slots : List MMAPSLOT, (∀ s ∈ slots, 0 < s.maxlen) →
    slots.Pairwise (fun a b => a.off + a.maxlen ≤ b.off) →
    (∃ s ∈ slots, IW_RANGES_OVERLAP s.off (s.off + s.maxlen) ns.off (ns.off + ns.maxlen)) →
    (_exfile_add_mmap_loop ns slots).1 = some Err.MMAP_OVERLAP := by
  intro slots
  induction slots with
  | nil => intro _ _ hex; simp at hex
  | cons s rest ih =>
    intro hpos hpw hex
    simp only [_exfile_add_mmap_loop]
    by_cases hov : IW_RANGES_OVERLAP s.off (s.off + s.maxlen) ns.off (ns.off + ns.maxlen)
    · rw [if_pos hov]
    · rw [if_neg hov]
      obtain ⟨t, ht, htov⟩ := hex
      rcases List.mem_cons.mp ht with rfl | ht
      · exact absurd htov hov
      · have hst : s.off + s.maxlen ≤ t.off := (List.pairwise_cons.mp hpw).1 t ht
        by_cases hlt : ns.off < s.off
        · exfalso
          have hs0 := hpos s (by simp)
          simp only [IW_RANGES_OVERLAP] at hov htov
          omega
        · rw [if_neg hlt]
          dsimp only
          exact ih (fun u hu => hpos u (List.mem_cons_of_mem s hu))
            (List.pairwise_cons.mp hpw).2 ⟨t, ht, htov⟩

/-- On success the insertion walk yields a permutation of `ns :: slots`
that is again sorted with pairwise disjoint ranges. -/
theorem add_loop_insert (ns : MMAPSLOT) (hns : 0 < ns.maxlen) :
    ∀ slots : List MMAPSLOT, (∀ s ∈ slots, 0 < s.maxlen) →
    slots.Pairwise (fun a b => a.off + a.maxlen ≤ b.off) →
    (_exfile_add_mmap_loop ns slots).1 = none →
    (_exfile_add_mmap_loop ns slots).2.Pairwise (fun a b => a.off + a.maxlen ≤ b.off) ∧
    (_exfile_add_mmap_loop ns slots).2.Perm (ns :: slots) := by
  intro slots
  induction slots with
  | nil =>
    intro _ _ _
    exact ⟨List.pairwise_singleton _ _, List.Perm.refl _⟩
  | cons s rest ih =>
    intro hpos hpw h
    simp only [_exfile_add_mmap_loop] at h ⊢
    by_cases hov : IW_RANGES_OVERLAP s.off (s.off + s.maxlen) ns.off (ns.off + ns.maxlen)
    · rw [if_pos hov] at h
      exact absurd h (by simp)
    · rw [if_neg hov] at h ⊢
      simp only [IW_RANGES_OVERLAP] at hov
      push_neg at hov
      by_cases hlt : ns.off < s.off
      · rw [if_pos hlt] at h ⊢
        have hnss : ns.off + ns.maxlen ≤ s.off := hov.1 (by omega)
        refine ⟨List.pairwise_cons.mpr ⟨?_, hpw⟩, List.Perm.refl _⟩
        intro t ht
        rcases List.mem_cons.mp ht with rfl | ht
        · exact hnss
        · have hst : s.off + s.maxlen ≤ t.off := (List.pairwise_cons.mp hpw).1 t ht
          have := hpos s (by simp)
          omega
      · rw [if_neg hlt] at h ⊢
        dsimp only at h ⊢
        obtain ⟨ihp, ihperm⟩ := ih (fun u hu => hpos u (List.mem_cons_of_mem s hu))
          (List.pairwise_cons.mp hpw).2 h
        have hsns : s.off + s.maxlen ≤ ns.off := hov.2 (by omega)
        constructor
        · refine List.pairwise_cons.mpr ⟨?_, ihp⟩
          intro t ht
          have ht' : t ∈ ns :: rest := ihperm.mem_iff.mp ht
          rcases List.mem_cons.mp ht' with rfl | ht'
          · exact hsns
          · exact (List.pairwise_cons.mp hpw).1 t ht'
        · exact (ihperm.cons s).trans (List.Perm.swap ns s rest)

/-- After a successful `ensure_size` on a state within its (nonzero,
page-aligned) `maxoff`, the file size still respects `maxoff`: any
clamping or round-up stays below it. -/
theorem ensure_success_le_maxoff (env : Env) (st : EXF) (sz : Int)
    (hps : 0 < st.psize) (hdvd : st.psize ∣ st.maxoff) (hmz : st.maxoff ≠ 0)
    (hfs : st.fsize ≤ st.maxoff)
    (h : (_exfile_ensure_size_lw env st sz).1 = none) :
    (_exfile_ensure_size_lw env st sz).2.fsize ≤ st.maxoff := by
  simp only [_exfile_ensure_size_lw] at h ⊢
  split_ifs at h ⊢ with h1 h2 h3 h4
  · exact hfs
  · rcases truncate_success_fsize env st st.maxoff hps h with hf | hf
    · rw [hf]
      exact IW_ROUNDUP_le hps hdvd (le_refl _)
    · omega
  · push_neg at h3
    rcases truncate_success_fsize env st (st.rspolicy sz st.fsize) hps h with hf | hf
    · rw [hf]
      exact IW_ROUNDUP_le hps hdvd (h3 hmz)
    · have := h3 hmz
      omega

/-- Realisation of a freshly created slot (`len = 0`) cannot hit the
`munmap` path, so it succeeds whenever `mmap` does (or is not needed). -/
theorem initmmap_slot_fresh_ok (env : Env) (fsize off maxlen : Int)
    (hm : env.mmapOk = true) :
    (_exfile_initmmap_slot_lw env fsize ⟨off, 0, maxlen⟩).1 = none := by
  simp only [_exfile_initmmap_slot_lw]
  split_ifs <;> simp_all

/-- C1: for every successful `write(off, buf, n)` on an open extendable
file, a `read(off, n)` with no intervening writers returns exactly the
`n` bytes of `buf` (and reports `n` bytes read, with no error),
regardless of how the range is split between mmapped slots, gaps
serviced by the positional backend, and the tail beyond the last
slot. -/
theorem C1_write_read_roundtrip (env : Env) (st : EXF) (off siz : Int) (buf b0 : Int → Nat)
    (hps : 0 < st.psize) (hsiz : 0 ≤ siz)
    (hw : (_exfile_write env st off buf siz).1 = none) :
    (_exfile_read (_exfile_write env st off buf siz).2.2 off b0 siz).1 = none ∧
    (_exfile_read (_exfile_write env st off buf siz).2.2 off b0 siz).2.1 = siz ∧
    ∀ i, 0 ≤ i → i < siz →
      (_exfile_read (_exfile_write env st off buf siz).2.2 off b0 siz).2.2 i = buf i := by
  obtain ⟨hoff, hsp, hfs, hdata⟩ := write_success env st off buf siz hps hsiz hw
  obtain ⟨r1, r2, r3⟩ := read_spec (_exfile_write env st off buf siz).2.2 off b0 siz hoff hsiz
  refine ⟨r1, by omega, ?_⟩
  intro i hi0 hi1
  rw [r3 i hi0 (by omega), hdata (off + i), if_pos (by omega)]
  congr 1
  omega

/-- C1 witness: on an empty 4096-page file, writing 3 bytes of a
constant buffer at offset 0 succeeds and reading them back returns the
buffer. -/
theorem C1_witness :
    (_exfile_read (_exfile_write env_ok st_c1 0 buf7 3).2.2 0 zeroData 3).2.1 = 3 ∧
    (_exfile_read (_exfile_write env_ok st_c1 0 buf7 3).2.2 0 zeroData 3).2.2 1 = buf7 1 := by
  have h := C1_write_read_roundtrip env_ok st_c1 0 3 buf7 zeroData (by decide) (by decide)
    (by decide)
  exact ⟨h.2.1, h.2.2 1 (by decide) (by decide)⟩

/-- C2 counterexample: truncating the file `st_c2` (one registered slot,
size 0) to 4096 in an environment where `ftruncate` succeeds but `mmap`
fails takes the grow path, fails during slot re-realisation — and leaves
`fsize = 4096` instead of restoring the pre-call value `0`. -/
theorem C2_counterexample :
    (_exfile_truncate_lw env_mmapfail st_c2 4096).1 = some Err.ERRNO ∧
    st_c2.fsize = 0 ∧
    (_exfile_truncate_lw env_mmapfail st_c2 4096).2.fsize = 4096 := by
  refine ⟨by decide, by decide, by decide⟩

/-- C2 (amended): if `truncate(x)` succeeds then `fsize =
round_up(x, psize)` afterwards; if it fails then `fsize` equals its
pre-call value — except when the file was being grown, `ftruncate`
succeeded and slot re-realisation failed, in which case `fsize` keeps
the new rounded value.  The original error is the code surfaced. -/
theorem C2_truncate_fsize (env : Env) (st : EXF) (x : Int)
    (hps : 0 < st.psize) (hdvd : st.psize ∣ st.fsize) :
    ((_exfile_truncate_lw env st x).1 = none →
      (_exfile_truncate_lw env st x).2.fsize = IW_ROUNDUP x st.psize) ∧
    (∀ e, (_exfile_truncate_lw env st x).1 = some e →
      (_exfile_truncate_lw env st x).2.fsize = st.fsize ∨
      ((_exfile_truncate_lw env st x).2.fsize = IW_ROUNDUP x st.psize ∧
        st.fsize < IW_ROUNDUP x st.psize ∧ env.ftruncOk = true)) := by
  constructor
  · intro h
    rcases truncate_success_fsize env st x hps h with hf | ⟨hf, heq⟩
    · exact hf
    · rw [hf, ← heq, IW_ROUNDUP_eq_self hps (heq ▸ hdvd)]
  · intro e h
    exact truncate_fail_fsize env st x e h

/-- C2 witness: growing `st_c2` to 4096 with all system calls
succeeding leaves `fsize` at the page round-up of the request. -/
theorem C2_witness :
    (_exfile_truncate_lw env_ok st_c2 4096).2.fsize = IW_ROUNDUP 4096 st_c2.psize :=
  (C2_truncate_fsize env_ok st_c2 4096 (by decide) ⟨0, by decide⟩).1 (by decide)

/-- C3: slot realisation computes `nlen = 0` when `off ≥ fsize` and
`min(maxlen, fsize - off)` otherwise; it is a no-op when `nlen` equals
the current `len`; and after a successful realisation pass every slot
satisfies `len = min(maxlen, max(0, fsize - off))`. -/
theorem C3_slot_len_invariant (env : Env) (fsize : Int) (s : MMAPSLOT)
    (slots : List MMAPSLOT)
    (hml : 0 ≤ s.maxlen) (hmls : ∀ t ∈ slots, 0 ≤ t.maxlen) :
    ((if s.off ≥ fsize then (0 : Int) else min s.maxlen (fsize - s.off)) = s.len →
      _exfile_initmmap_slot_lw env fsize s = (none, s)) ∧
    ((_exfile_initmmap_slot_lw env fsize s).1 = none →
      (_exfile_initmmap_slot_lw env fsize s).2.len =
        min s.maxlen (max 0 (fsize - s.off))) ∧
    ((_exfile_initmmap_lw env fsize slots).1 = none →
      ∀ t ∈ (_exfile_initmmap_lw env fsize slots).2,
        t.len = min t.maxlen (max 0 (fsize - t.off))) := by
  refine ⟨?_, initmmap_slot_len env fsize s hml, initmmap_len env fsize slots hmls⟩
  intro h
  simp only [_exfile_initmmap_slot_lw]
  rw [if_pos h]

/-- C3 witness: realising the slot `[0, 4096)` of a one-page file sets
`len` to the invariant value 4096; a second realisation is a no-op. -/
theorem C3_witness :
    (_exfile_initmmap_slot_lw env_ok 4096 ⟨0, 0, 4096⟩).2.len =
      min (4096 : Int) (max 0 (4096 - 0)) ∧
    _exfile_initmmap_slot_lw env_ok 4096 ⟨0, 4096, 4096⟩ = (none, ⟨0, 4096, 4096⟩) := by
  refine ⟨(C3_slot_len_invariant env_ok 4096 ⟨0, 0, 4096⟩ [] (by decide) (by decide)).2.1
    (by decide), ?_⟩
  exact (C3_slot_len_invariant env_ok 4096 ⟨0, 4096, 4096⟩ [] (by decide) (by decide)).1
    (by decide)

/-- C4: `ensure_size(s)`: when `fsize ≥ s` it is a no-op whose result
does not depend on the policy; when the policy's result `n` has `n < s`
or is not page-aligned the call fails `RESIZE_POLICY_FAIL`; and when
`maxoff > 0` and `n > maxoff`, `n` is clamped to `maxoff` and the call
fails `MAXOFF` exactly when the clamped value is still `< s`. -/
theorem C4_ensure_size (env : Env) (st : EXF) (sz : Int)
    (hps : 0 < st.psize) (hdm : st.maxoff ≠ 0 → st.psize ∣ st.maxoff) :
    (st.fsize ≥ sz → ∀ p, _exfile_ensure_size_lw env { st with rspolicy := p } sz =
      (none, { st with rspolicy := p })) ∧
    (st.fsize < sz →
      (st.rspolicy sz st.fsize < sz ∨ st.rspolicy sz st.fsize % st.psize ≠ 0) →
      _exfile_ensure_size_lw env st sz = (some Err.RESIZE_POLICY_FAIL, st)) ∧
    (st.fsize < sz →
      ¬(st.rspolicy sz st.fsize < sz ∨ st.rspolicy sz st.fsize % st.psize ≠ 0) →
      st.maxoff ≠ 0 → st.rspolicy sz st.fsize > st.maxoff →
      ((_exfile_ensure_size_lw env st sz).1 = some Err.MAXOFF ↔ st.maxoff < sz)) := by
  refine ⟨fun h p => ensure_noop env st sz h p, ?_, ?_⟩
  · intro h1 h2
    simp only [_exfile_ensure_size_lw]
    rw [if_neg (by omega), if_pos h2]
  · intro h1 h2 h3 h4
    simp only [_exfile_ensure_size_lw]
    rw [if_neg (by omega), if_neg h2, if_pos ⟨h3, h4⟩]
    by_cases h5 : st.maxoff < sz
    · rw [if_pos h5]
      simp [h5]
    · rw [if_neg h5]
      have hne := truncate_ne_maxoff env st st.maxoff
        (Or.inr (le_of_eq (IW_ROUNDUP_eq_self hps (hdm h3))))
      exact ⟨fun hmx => absurd hmx hne, fun hlt => absurd hlt h5⟩

/-- C4 witness: with `fsize = 0`, `maxoff = 4096` and a policy that
returns 8192, `ensure_size(4097)` clamps to `maxoff` and fails `MAXOFF`
because the clamped size is below the request. -/
theorem C4_witness :
    (_exfile_ensure_size_lw env_ok st_c4 4097).1 = some Err.MAXOFF :=
  ((C4_ensure_size env_ok st_c4 4097 (by decide) (fun _ => ⟨1, by decide⟩)).2.2
    (by decide) (by decide) (by decide) (by decide)).mpr (by decide)

/-- C5: under the registry invariant (and the §4.2 precondition that
`off` is page-aligned), `add_mmap(off, maxlen)` fails `MMAP_OVERLAP`
whenever the candidate range (with `maxlen` page-adjusted) overlaps an
existing slot under the inclusive-open predicate; on success the slot
list contains the new slot and stays sorted ascending by `off` with
`a.off + a.maxlen ≤ b.off` for all pairs. -/
theorem C5_add_mmap (env : Env) (st : EXF) (off maxlen0 : Int)
    (hm : env.mmapOk = true)
    (hal : off % st.psize = 0)
    (hpos : ∀ s ∈ st.mmslots, 0 < s.maxlen)
    (hpw : st.mmslots.Pairwise (fun a b => a.off + a.maxlen ≤ b.off))
    (hml : 0 < _exfile_adjust_maxlen st.psize off maxlen0) :
    ((∃ s ∈ st.mmslots, IW_RANGES_OVERLAP s.off (s.off + s.maxlen) off
        (off + _exfile_adjust_maxlen st.psize off maxlen0)) →
      (_exfile_add_mmap env st off maxlen0).1 = some Err.MMAP_OVERLAP) ∧
    ((_exfile_add_mmap env st off maxlen0).1 = none →
      (_exfile_add_mmap env st off maxlen0).2.mmslots.Pairwise
        (fun a b => a.off + a.maxlen ≤ b.off) ∧
      (_exfile_add_mmap env st off maxlen0).2.mmslots.Pairwise
        (fun a b => a.off < b.off) ∧
      ∃ t ∈ (_exfile_add_mmap env st off maxlen0).2.mmslots,
        t.off = off ∧ t.maxlen = _exfile_adjust_maxlen st.psize off maxlen0) := by
  have hri : (_exfile_initmmap_slot_lw env st.fsize
      ⟨off, 0, _exfile_adjust_maxlen st.psize off maxlen0⟩).1 = none :=
    initmmap_slot_fresh_ok env st.fsize off _ hm
  have hom := initmmap_slot_off_maxlen env st.fsize
    ⟨off, 0, _exfile_adjust_maxlen st.psize off maxlen0⟩
  have hns : 0 < (_exfile_initmmap_slot_lw env st.fsize
      ⟨off, 0, _exfile_adjust_maxlen st.psize off maxlen0⟩).2.maxlen := by
    rw [hom.2]; exact hml
  simp only [_exfile_add_mmap]
  rw [if_neg (by simp [hal]), if_neg (by omega), if_neg (by simp [hri])]
  constructor
  · intro hex
    have hex' : ∃ s ∈ st.mmslots, IW_RANGES_OVERLAP s.off (s.off + s.maxlen)
        (_exfile_initmmap_slot_lw env st.fsize
          ⟨off, 0, _exfile_adjust_maxlen st.psize off maxlen0⟩).2.off
        ((_exfile_initmmap_slot_lw env st.fsize
          ⟨off, 0, _exfile_adjust_maxlen st.psize off maxlen0⟩).2.off +
         (_exfile_initmmap_slot_lw env st.fsize
          ⟨off, 0, _exfile_adjust_maxlen st.psize off maxlen0⟩).2.maxlen) := by
      rw [hom.1, hom.2]; exact hex
    have hov := add_loop_overlap _ hns st.mmslots hpos hpw hex'
    rw [if_pos (by simp [hov])]
    exact hov
  · intro hsucc
    by_cases hrc : (_exfile_add_mmap_loop (_exfile_initmmap_slot_lw env st.fsize
        ⟨off, 0, _exfile_adjust_maxlen st.psize off maxlen0⟩).2 st.mmslots).1 = none
    · rw [if_neg (by simp [hrc])]
      obtain ⟨hp, hperm⟩ := add_loop_insert _ hns st.mmslots hpos hpw hrc
      have hmem : ∀ t ∈ (_exfile_add_mmap_loop (_exfile_initmmap_slot_lw env st.fsize
          ⟨off, 0, _exfile_adjust_maxlen st.psize off maxlen0⟩).2 st.mmslots).2,
          0 < t.maxlen := by
        intro t ht
        rcases List.mem_cons.mp (hperm.mem_iff.mp ht) with rfl | ht'
        · exact hns
        · exact hpos t ht'
      refine ⟨hp, ?_, ?_⟩
      · exact List.Pairwise.imp_of_mem
          (fun ha hb hr => by have := hmem _ ha; omega) hp
      · exact ⟨_, hperm.mem_iff.mpr (List.mem_cons_self _ _), hom.1, hom.2⟩
    · rw [if_pos (by simp [hrc])] at hsucc ⊢
      exact absurd hsucc hrc

/-- C5 witness: on 2048-byte pages with an existing slot `[0, 4096)`,
adding `[2048, 2048 + 4096)` overlaps and fails `MMAP_OVERLAP`
(the spec's §8 scenario 3). -/
theorem C5_witness :
    (_exfile_add_mmap env_ok st_c5 2048 4096).1 = some Err.MMAP_OVERLAP :=
  (C5_add_mmap env_ok st_c5 2048 4096 (by decide) (by decide) (by decide)
    (by decide) (by decide)).1 (by decide)

/-- C6 counterexample: with `psize = 4096`, request 8193 and context
`n = 3, dn = 2`, the policy returns `round_up((8193 / 2) * 3) = 12288`,
not `round_up(8193 * 3 / 2) = 16384` as the claim's formula states. -/
theorem C6_counterexample :
    iw_exfile_szpolicy_mul 4096 8193 0 (some ⟨3, 2⟩) = 12288 ∧
    IW_ROUNDUP ((8193 * 3) / 2) 4096 = 16384 ∧ ((12288 : Int) ≠ 16384) := by
  refine ⟨by decide, by decide, by decide⟩

/-- C6 (amended): for a sizing request with a valid context the
rational-multiplier policy returns `round_up((req / dn) * n, psize)` —
integer division by `dn` happens before the multiplication by `n` —
clamped to `OFF_T_MAX`; with a missing or invalid context it returns
the default page-rounding policy's result. -/
theorem C6_szpolicy_mul (psize req cs n dn : Int) (hreq : req ≠ -1) :
    (0 < dn → dn ≤ n →
      iw_exfile_szpolicy_mul psize req cs (some ⟨n, dn⟩) =
        (if IW_ROUNDUP ((req / dn) * n) psize > OFF_T_MAX then OFF_T_MAX
         else IW_ROUNDUP ((req / dn) * n) psize)) ∧
    (iw_exfile_szpolicy_mul psize req cs none = _exfile_default_szpolicy psize req) ∧
    ((dn = 0 ∨ n < dn) →
      iw_exfile_szpolicy_mul psize req cs (some ⟨n, dn⟩) =
        _exfile_default_szpolicy psize req) := by
  refine ⟨?_, ?_, ?_⟩
  · intro hdn hn
    simp only [iw_exfile_szpolicy_mul]
    have hcond : ¬((⟨n, dn⟩ : IW_RNUM).dn = 0 ∨ (⟨n, dn⟩ : IW_RNUM).n < (⟨n, dn⟩ : IW_RNUM).dn) := by
      change ¬(dn = 0 ∨ n < dn)
      omega
    rw [if_neg hreq, if_neg hcond]
  · simp only [iw_exfile_szpolicy_mul]
    rw [if_neg hreq]
  · intro h
    simp only [iw_exfile_szpolicy_mul]
    rw [if_neg hreq, if_pos (show (⟨n, dn⟩ : IW_RNUM).dn = 0 ∨ (⟨n, dn⟩ : IW_RNUM).n < (⟨n, dn⟩ : IW_RNUM).dn from h)]

/-- C6 witness: the amended formula evaluated at the counterexample
input. -/
theorem C6_witness :
    iw_exfile_szpolicy_mul 4096 8193 0 (some ⟨3, 2⟩) =
      (if IW_ROUNDUP ((8193 / 2) * 3) 4096 > OFF_T_MAX then OFF_T_MAX
       else IW_ROUNDUP ((8193 / 2) * 3) 4096) :=
  (C6_szpolicy_mul 4096 8193 0 3 2 (by decide)).1 (by decide) (by decide)

/-- C7 counterexample: on an empty file (`fsize = 0`), `read(1, 1)` has
`off + siz > fsize`, succeeds and reports 0 bytes read — not the claim's
"shrunk size" `fsize - off = -1`. -/
theorem C7_counterexample :
    (_exfile_read st_c1 1 zeroData 1).1 = none ∧
    (_exfile_read st_c1 1 zeroData 1).2.1 = 0 ∧
    st_c1.fsize - 1 = -1 ∧ ((0 : Int) ≠ st_c1.fsize - 1) := by
  refine ⟨by decide, by decide, by decide, by decide⟩

/-- C7 (amended): for every `read(off, buf, siz)` with `off ≥ 0` and
`off + siz > fsize`, the call succeeds and the reported bytes-read count
equals `max(0, fsize - off)`; in particular a read at EOF reports 0
bytes and succeeds. -/
theorem C7_read_short (st : EXF) (off siz0 : Int) (buf0 : Int → Nat)
    (hoff : 0 ≤ off) (hsiz : 0 ≤ siz0) (hsh : off + siz0 > st.fsize) :
    (_exfile_read st off buf0 siz0).1 = none ∧
    (_exfile_read st off buf0 siz0).2.1 = max 0 (st.fsize - off) := by
  obtain ⟨h1, h2, h3⟩ := read_spec st off buf0 siz0 hoff hsiz
  exact ⟨h1, by omega⟩

/-- C7 witness: `read(0, 1)` at EOF on an empty file reports 0 bytes
read, no error. -/
theorem C7_witness :
    (_exfile_read st_c1 0 zeroData 1).1 = none ∧
    (_exfile_read st_c1 0 zeroData 1).2.1 = max 0 (st_c1.fsize - 0) :=
  C7_read_short st_c1 0 1 zeroData (by decide) (by decide) (by decide)

/-- C8: a write on a file with `maxoff > 0` whose end exceeds `maxoff`
fails `MAXOFF` with zero bytes written; a write whose end lies exactly
on `maxoff` succeeds (with a writable file, succeeding system calls and
a well-behaved policy), with any required growth clamped to `maxoff`. -/
theorem C8_write_maxoff (env : Env) (st : EXF) (off siz : Int) (buf : Int → Nat)
    (hps : 0 < st.psize) (hoff : 0 ≤ off) (hsiz : 0 ≤ siz) (hmax : 0 < st.maxoff) :
    (off + siz > st.maxoff →
      _exfile_write env st off buf siz = (some Err.MAXOFF, 0, st)) ∧
    (off + siz = st.maxoff →
      st.owrite = true → env.ftruncOk = true → env.mmapOk = true → env.munmapOk = true →
      st.psize ∣ st.maxoff → st.fsize ≤ st.maxoff →
      (∀ s c, s ≤ st.rspolicy s c) → (∀ s c, st.rspolicy s c % st.psize = 0) →
      (_exfile_write env st off buf siz).1 = none ∧
      (_exfile_write env st off buf siz).2.1 = siz ∧
      (_exfile_write env st off buf siz).2.2.fsize ≤ st.maxoff) := by
  constructor
  · intro h
    simp only [_exfile_write]
    rw [if_neg (by omega), if_pos ⟨by omega, h⟩]
  · intro h hw hft hm hu hdvd hfs hp1 hp2
    simp only [_exfile_write]
    rw [if_neg (by omega), if_neg (by omega)]
    by_cases hgt : off + siz > st.fsize
    · rw [if_pos hgt]
      have hok : (_exfile_ensure_size_lw env st (off + siz)).1 = none :=
        ensure_ok env st (off + siz) hps (hp1 _ _) (hp2 _ _) hw hft hm hu
          (Or.inr ⟨hdvd, by omega⟩)
      rw [if_neg (by simp [hok])]
      obtain ⟨g1, g2, g3, _, _, _, _, _, _⟩ :=
        write_go_spec (_exfile_ensure_size_lw env st (off + siz)).2 off buf siz hsiz
      refine ⟨g1, g2, ?_⟩
      rw [g3]
      exact ensure_success_le_maxoff env st (off + siz) hps hdvd (by omega) hfs hok
    · rw [if_neg hgt]
      rw [if_neg (by simp)]
      dsimp only
      obtain ⟨g1, g2, g3, _, _, _, _, _, _⟩ := write_go_spec st off buf siz hsiz
      exact ⟨g1, g2, by omega⟩

/-- C8 witness: with `maxoff = 8192`, writing 8192 bytes at offset 0
succeeds and writing one byte at offset 8192 fails `MAXOFF`. -/
theorem C8_witness :
    (_exfile_write env_ok st_c8 0 buf7 8192).1 = none ∧
    _exfile_write env_ok st_c8 8192 buf7 1 = (some Err.MAXOFF, 0, st_c8) := by
  constructor
  · exact ((C8_write_maxoff env_ok st_c8 0 8192 buf7 (by decide) (by decide) (by decide)
      (by decide)).2 (by decide) (by decide) (by decide) (by decide) (by decide)
      ⟨2, by decide⟩ (by decide) (fun s c => le_IW_ROUNDUP (by norm_num))
      (fun s c => Int.emod_eq_zero_of_dvd (dvd_IW_ROUNDUP s 4096))).1
  · exact (C8_write_maxoff env_ok st_c8 8192 1 buf7 (by decide) (by decide) (by decide)
      (by decide)).1 (by decide)

/-- C9 counterexample: on a read-only one-page file (`fsize = 4096`),
`truncate(4095)` — a size strictly smaller than `fsize` — succeeds as a
no-op (the page round-up equals `fsize`), instead of failing
`READONLY`. -/
theorem C9_counterexample :
    (_exfile_truncate_lw env_ok st_c9 4095).1 = none ∧
    (4095 : Int) < st_c9.fsize ∧ st_c9.owrite = false := by
  refine ⟨by decide, by decide, by decide⟩

/-- C9 (amended): truncate to a size whose page round-up is strictly
smaller than `fsize` on a file opened without write permission fails
`READONLY` and leaves the state (in particular `fsize`) unchanged; when
the round-up equals `fsize` the call is a successful no-op. -/
theorem C9_truncate_shrink_readonly (env : Env) (st : EXF) (x : Int)
    (hps : 0 < st.psize) (hro : st.owrite = false)
    (hlt : IW_ROUNDUP x st.psize < st.fsize) :
    _exfile_truncate_lw env st x = (some Err.READONLY, st) := by
  have hx : x ≤ IW_ROUNDUP x st.psize := le_IW_ROUNDUP hps
  simp only [_exfile_truncate_lw]
  rw [if_neg (by omega), if_neg (by omega), if_pos (by omega), if_pos hro]

/-- C9 witness: shrinking the read-only file to 0 fails `READONLY` and
changes nothing. -/
theorem C9_witness :
    _exfile_truncate_lw env_ok st_c9 0 = (some Err.READONLY, st_c9) :=
  C9_truncate_shrink_readonly env_ok st_c9 0 (by decide) (by decide) (by decide)

/-- C10: `close` on an instance whose implementation pointer is null
returns success rather than `INVALID_STATE`, and close is idempotent:
a close after any close (which nulls the pointer) returns 0 and changes
nothing. -/
theorem C10_close_idempotent :
    (∀ env, _exfile_close env none = (none, none)) ∧
    (∀ env f, _exfile_close env (_exfile_close env f).2 = (none, none)) := by
  refine ⟨fun env => rfl, fun env f => ?_⟩
  cases f <;> rfl
